import Mathlib

/-!
# Verification of the RAG orchestration core (`backend/app/services/rag_service.py`)

This file is a shallow embedding, in Lean 4, of the pure/orchestration logic of
`rag_service.py`:

* `_preprocess_query`  → `preprocessQuery`
* `compute_confidence` → `compute_confidence`
* `_deduplicate_chunks`→ `deduplicate_chunks`
* `extract_citations`  → `extract_citations` (with a faithful model of the
  scan `re.findall` performs for the pattern `\[SOURCE:\s*(.*?),\s*(.*?)\]`)
* `_generate_multi_queries` → `generate_multi_queries`
* `_rerank_chunks`     → `rerank_chunks`
* `ask_question`       → `ask_question`

Modelling conventions:

* Python `float` arithmetic is modelled by exact rationals (`ℚ`).  All the
  quantities the claims compare are far from double-precision representation
  error except where a theorem notes otherwise.
* External effects (the auxiliary flash model, the embedding service, the
  Chroma vector collection, the primary generation model) are modelled by an
  `Oracle` record giving the outcome of each call: `Except String α` mirrors
  "the Python call returned normally / raised".  `ask_question` also returns
  the trace of external calls it performed, so that "fails before any external
  call" is expressible.
* Python's `hash(text)` fingerprint in `_deduplicate_chunks` is modelled as an
  injective fingerprint (the text itself), matching the documented assumption
  that fingerprint equality means text equality.
* Python string routines (`strip`, `lower`, `split`, `endswith`, `in`) are
  modelled character-exactly for ASCII input on `List Char`.
-/

/-- Characters treated as whitespace by Python's `str.strip`/`\s`
(ASCII fragment). -/
def isPySpace (c : Char) : Bool :=
  c = ' ' || c = '\t' || c = '\n' || c = '\r' || c = '\x0b' || c = '\x0c'

/-- Python `str.strip()` on a character list. -/
def pyStripList (l : List Char) : List Char :=
  ((l.dropWhile isPySpace).reverse.dropWhile isPySpace).reverse

/-- Python `str.strip()`. -/
def pyStrip (s : String) : String := ⟨pyStripList s.data⟩

/-- Python `str.rstrip()` on a character list. -/
def pyRstripList (l : List Char) : List Char :=
  (l.reverse.dropWhile isPySpace).reverse

/-- Python `str.lower` on one character (ASCII fragment). -/
def pyLowerChar (c : Char) : Char :=
  if 65 ≤ c.toNat ∧ c.toNat ≤ 90 then Char.ofNat (c.toNat + 32) else c

/-- Python `str.lower` (ASCII fragment). -/
def pyLowerList (l : List Char) : List Char := l.map pyLowerChar

/-- Python first-occurrence deduplication, `list(dict.fromkeys(xs))`;
`seen` is the set of keys already emitted. -/
def pyDedup {α : Type} [DecidableEq α] : List α → List α → List α
  | _, [] => []
  | seen, x :: xs =>
    if x ∈ seen then pyDedup seen xs else x :: pyDedup (x :: seen) xs

/-- Python `needle in hay` substring test, on character lists. -/
def pyInfix (needle hay : List Char) : Bool :=
  hay.tails.any (fun t => needle.isPrefixOf t)

/-- `NOT_FOUND_TEMPLATE.format(subject_name=s)`. -/
def NOT_FOUND_TEMPLATE (subject_name : String) : String :=
  "Not found in your notes for " ++ subject_name

/-- `CONFIDENCE_THRESHOLDS["NOT_FOUND"]`. -/
def THRESHOLD_NOT_FOUND : ℚ := 0.60

/-- `CONFIDENCE_THRESHOLDS["LOW"]`. -/
def THRESHOLD_LOW : ℚ := 0.75

/-- `CONFIDENCE_THRESHOLDS["MEDIUM"]`. -/
def THRESHOLD_MEDIUM : ℚ := 0.90

/-- Round-half-even of a rational to an integer (Python `round` on an exactly
represented value). -/
def roundHalfEven (q : ℚ) : ℤ :=
  let f := ⌊q⌋
  let r := q - f
  if r < 1/2 then f
  else if 1/2 < r then f + 1
  else if Even f then f else f + 1

/-- Python `round(x, 4)` modelled on exact rationals. -/
def roundQ4 (x : ℚ) : ℚ := (roundHalfEven (x * 10000) : ℚ) / 10000

/-- Result dictionary of `compute_confidence`.  (In the empty-similarity case
the Python dict omits the last four keys; they are zero-filled here.) -/
structure ConfidenceResult where
  tier : String
  score : ℚ
  maxScore : ℚ
  avgScore : ℚ
  minScore : ℚ
  variance : ℚ
  keywordBonus : ℚ

deriving Repr, DecidableEq

/-- `compute_confidence(similarities, query_keywords, chunk_texts)`.
The two optional arguments default to `None` in Python; `[]` is falsy exactly
like `None` in the `if query_keywords and chunk_texts:` guard, so `List` with
default `[]` models both. -/
def compute_confidence (similarities : List ℚ)
    (query_keywords : List String := []) (chunk_texts : List String := []) :
    ConfidenceResult :=
  match similarities with
  | [] => ⟨"NOT_FOUND", 0, 0, 0, 0, 0, 0⟩
  | s :: rest =>
    let max_score := rest.foldl max s
    let avg_score := (s :: rest).foldl (· + ·) 0 / ((s :: rest).length : ℚ)
    let min_score := rest.foldl min s
    let variance :=
      ((s :: rest).foldl (fun acc x => acc + (x - avg_score) ^ 2) 0) /
        ((s :: rest).length : ℚ)
    let keyword_bonus : ℚ :=
      if query_keywords ≠ [] ∧ chunk_texts ≠ [] then
        let keyword_matches :=
          ((chunk_texts.map (fun text =>
            (query_keywords.filter (fun keyword =>
              pyInfix (pyLowerList keyword.data) (pyLowerList text.data))).length)).foldl
            (· + ·) 0 : ℕ)
        min 0.05 (((keyword_matches : ℚ) / (chunk_texts.length : ℚ)) * 0.10)
      else 0
    let weighted₀ :=
      0.75 * max_score + 0.25 * avg_score + keyword_bonus - 0.15 * variance
    let weighted := max 0 (min 1 weighted₀)
    let tier :=
      if weighted < THRESHOLD_NOT_FOUND then "NOT_FOUND"
      else if weighted < THRESHOLD_LOW then "LOW"
      else if weighted < THRESHOLD_MEDIUM then "MEDIUM"
      else "HIGH"
    ⟨tier, roundQ4 weighted, roundQ4 max_score, roundQ4 avg_score,
      roundQ4 min_score, roundQ4 variance, roundQ4 keyword_bonus⟩

/-- A retrieved chunk dictionary, as assembled by the retrieval step of
`ask_question` (`cdict = dict(metadatas[i]); cdict["text"] = ...;
cdict["similarity"] = ...`).  A missing `chunkId` key is modelled by `""`
(both are falsy/defaulted identically at every use site). -/
structure Chunk where
  text : String
  fileName : String
  locationRef : String
  sourceFormat : String
  chunkId : String
  similarity : ℚ

deriving Repr, DecidableEq

/-- The loop of `_deduplicate_chunks`: `seen` is the set of content
fingerprints already emitted (`seen_hashes`, with `hash` modelled as an
injective fingerprint of the text). -/
def dedupGo : List Chunk → List String → List Chunk
  | [], _ => []
  | c :: cs, seen =>
    if c.text ∈ seen then dedupGo cs seen
    else c :: dedupGo cs (c.text :: seen)

/-- `_deduplicate_chunks(chunks)`. -/
def deduplicate_chunks (chunks : List Chunk) : List Chunk :=
  if chunks.length ≤ 1 then chunks else dedupGo chunks []

/-- The `stop_words` set of `_preprocess_query`. -/
def stop_words : List String :=
  ["what", "is", "the", "a", "an", "are", "and", "or", "but", "in", "on", "at",
   "to", "for", "of", "with", "by", "from", "up", "about", "can", "that", "this",
   "do", "does", "did", "will", "would", "could", "should", "may", "might", "must"]

/-- The punctuation characters stripped from keyword boundaries,
`'.,?!:;()[]{}'`. -/
def keywordPunct : List Char :=
  ['.', ',', '?', '!', ':', ';', '(', ')', '[', ']', '\x7b', '\x7d']

/-- Python `w.strip('.,?!:;()[]{}')` on a character list. -/
def stripPunct (l : List Char) : List Char :=
  ((l.dropWhile (· ∈ keywordPunct)).reverse.dropWhile (· ∈ keywordPunct)).reverse

/-- `re.sub(r'\s+', ' ', query)`: replace each maximal whitespace run by a
single space.  Mapping every whitespace character to `' '` and then collapsing
runs of `' '` is equivalent. -/
def collapseWs : List Char → List Char
  | [] => []
  | c :: cs =>
    if isPySpace c then
      match collapseWs cs with
      | [] => [' ']
      | d :: ds => if d = ' ' then ' ' :: ds else ' ' :: d :: ds
    else c :: collapseWs cs

/-- `re.sub(r'^[?!]+\s*', '', query)`: drop a leading run of `?`/`!` and the
whitespace run after it (a no-op when the first character is neither). -/
def stripLeadingPunct (l : List Char) : List Char :=
  if (l.head?.map (fun c => c = '?' || c = '!')).getD false then
    (l.dropWhile (fun c => c = '?' || c = '!')).dropWhile isPySpace
  else l

/-- Helper of `splitWords`: `acc` is the reversed current word. -/
def splitWordsAux : List Char → List Char → List (List Char)
  | [], acc => if acc = [] then [] else [acc.reverse]
  | c :: cs, acc =>
    if c = ' ' then
      if acc = [] then splitWordsAux cs [] else acc.reverse :: splitWordsAux cs []
    else splitWordsAux cs (c :: acc)

/-- Python `s.split()` on a space-separated character list (after
`collapseWs`, the only whitespace left is single `' '`s, so splitting on `' '`
and dropping empties is `str.split()`). -/
def splitWords (l : List Char) : List (List Char) := splitWordsAux l []

/-- The keyword loop of `_preprocess_query`: strip punctuation, drop stop
words and words of length `≤ 2`. -/
def keywordsOf (words : List (List Char)) : List String :=
  (words.filterMap (fun w =>
    let clean_w := stripPunct w
    if (⟨clean_w⟩ : String) ∉ stop_words ∧ 2 < clean_w.length then
      some (⟨clean_w⟩ : String)
    else none))

deriving instance DecidableEq for Except

/-- Errors raised by the pipeline (`RAGError` instances, told apart by the
message the code attaches). -/
inductive RAGError where
  | invalidQuery
  | embedFailure (msg : String)
  | vectorDbError (msg : String)
  | generationFailure (msg : String)

deriving Repr, DecidableEq

/-- The argument of `ask_question`/`_preprocess_query`: Python is untyped, so
a caller may pass a non-string value; `nonString` stands for every such value
(all of them fail the `not query or not isinstance(query, str)` guard). -/
inductive QueryArg where
  | ofStr (s : String)
  | nonString

deriving Repr, DecidableEq

/-- `_preprocess_query(query)`: validation, whitespace normalisation, leading
`?`/`!` stripping, keyword extraction. -/
def preprocessQuery (query : QueryArg) : Except RAGError (String × List String) :=
  match query with
  | .nonString => .error .invalidQuery
  | .ofStr s =>
    if s = "" ∨ pyStrip s = "" then .error .invalidQuery
    else
      let normalized := pyStripList (collapseWs s.data)
      let cleaned := stripLeadingPunct normalized
      let keywords := keywordsOf (splitWords (pyLowerList cleaned))
      .ok (⟨cleaned⟩, keywords)

/-- Python `int(s)` on a run of decimal digit characters. -/
def natOfDigits (l : List Char) : ℕ :=
  l.foldl (fun n c => n * 10 + (c.toNat - 48)) 0

/-- Helper of `digitRuns`: `acc` is the reversed current digit run. -/
def digitRunsAux : List Char → List Char → List ℕ
  | [], acc => if acc = [] then [] else [natOfDigits acc.reverse]
  | c :: cs, acc =>
    if c.isDigit then digitRunsAux cs (c :: acc)
    else if acc = [] then digitRunsAux cs []
    else natOfDigits acc.reverse :: digitRunsAux cs []

/-- `[int(rid) for rid in re.findall(r'\d+', text)]`: the numbers denoted by
the maximal digit runs of `text`, in order. -/
def digitRuns (l : List Char) : List ℕ := digitRunsAux l []

/-- Helper of `splitOnNl`: `acc` is the reversed current segment. -/
def splitOnNlAux : List Char → List Char → List (List Char)
  | [], acc => [acc.reverse]
  | c :: cs, acc =>
    if c = '\n' then acc.reverse :: splitOnNlAux cs []
    else splitOnNlAux cs (c :: acc)

/-- Python `s.split('\n')` (keeps empty segments). -/
def splitOnNl (l : List Char) : List (List Char) := splitOnNlAux l []

/-- `_generate_multi_queries(query, subject_name)`, with the flash-model call
abstracted into its outcome `flash` (the subject name only shapes the prompt
sent to that model).  On success the model's text is stripped, split on
newlines, each line stripped and kept if non-empty, capped at 3, and the
first-occurrence-deduplicated list `[query] + queries[:3]` is returned; on any
failure the original query alone is returned. -/
def generate_multi_queries (query : String) (flash : Except String String) :
    List String :=
  match flash with
  | .error _ => [query]
  | .ok text =>
    let queries := ((splitOnNl (pyStrip text).data).map pyStripList).filter
      (fun q => q ≠ [])
    pyDedup [] (query :: (queries.take 3).map (fun l => (⟨l⟩ : String)))

/-- `_rerank_chunks(query, chunks)`, with the flash-model call abstracted into
its outcome `flash` (the query and chunk snippets only shape the prompt).
Empty and `≤ 2`-element inputs are returned unchanged before any call; on a
successful call the returned ids (`< len(chunks)`, first occurrence wins)
pick chunks in rank order and all unranked chunks are appended in input
order; on a failed call the input is returned unchanged. -/
def rerank_chunks (chunks : List Chunk) (flash : Except String String) :
    List Chunk :=
  if chunks.length ≤ 2 then chunks
  else
    match flash with
    | .error _ => chunks
    | .ok text =>
      let ranked_ids := (digitRuns text.data).filter (· < chunks.length)
      let uniq := pyDedup [] ranked_ids
      let reranked := uniq.filterMap (fun i => chunks[i]?)
      let remaining :=
        ((List.range chunks.length).filter (fun i => i ∉ uniq)).filterMap
          (fun i => chunks[i]?)
      reranked ++ remaining

/-- Lazy scan of `(.*?)` up to a literal `stop` character: Python's `.` does
not match a newline, so the scan fails on `'\n'` (and at end of input). -/
def scanUntil (stop : Char) : List Char → Option (List Char × List Char)
  | [] => none
  | c :: cs =>
    if c = '\n' then none
    else if c = stop then some ([], cs)
    else
      match scanUntil stop cs with
      | none => none
      | some (g, r) => some (c :: g, r)

/-- One attempted match of `\s*(.*?),\s*(.*?)\]` (the part of the citation
pattern after the literal `[SOURCE:`): each `\s*` is effectively a maximal
whitespace skip (backtracking it cannot save a failed lazy scan, because `.`
matches everything `\s` does except `'\n'`, and a capture cannot cross a
`'\n'`). Returns the two captures and the input remaining after `]`. -/
def tryMarker (l : List Char) : Option (String × String × List Char) :=
  match scanUntil ',' (l.dropWhile isPySpace) with
  | none => none
  | some (g1, rest1) =>
    match scanUntil ']' (rest1.dropWhile isPySpace) with
    | none => none
    | some (g2, rest2) => some (⟨g1⟩, ⟨g2⟩, rest2)

/-- `re.findall(r"\[SOURCE:\s*(.*?),\s*(.*?)\]", answer_text)`: leftmost,
non-overlapping matches; on a failed attempt the scan restarts one character
later.  Fuel-recursive with fuel `= length`; every step consumes at least one
character, so the fuel never runs out. -/
def findMarkersFuel : ℕ → List Char → List (String × String)
  | 0, _ => []
  | fuel + 1, l =>
    match l with
    | [] => []
    | c :: cs =>
      if "[SOURCE:".data.isPrefixOf (c :: cs) then
        match tryMarker ((c :: cs).drop 8) with
        | some (f, loc, rest) => (f, loc) :: findMarkersFuel fuel rest
        | none => findMarkersFuel fuel cs
      else findMarkersFuel fuel cs

/-- All `[SOURCE: name, loc]` matches of a text. -/
def findMarkers (l : List Char) : List (String × String) :=
  findMarkersFuel l.length l

/-- A validated citation (`{fileName, locationRef, chunkId, sourceFormat}`). -/
structure Citation where
  fileName : String
  locationRef : String
  chunkId : String
  sourceFormat : String

deriving Repr, DecidableEq

/-- The citation built from a matching chunk (`chunk.get("chunkId", "")` is
the `chunkId` field, with `""` for a missing key). -/
def mkCitation (c : Chunk) : Citation :=
  ⟨c.fileName, c.locationRef, c.chunkId, c.sourceFormat⟩

/-- The chunk-resolution test of `extract_citations`: the location reference
must match exactly, the file name exactly or by suffix
(`chunk["fileName"].endswith(filename)`). -/
def chunkMatches (filename location : String) (c : Chunk) : Bool :=
  (c.fileName == filename || filename.data.isSuffixOf c.fileName.data) &&
    c.locationRef == location

/-- `sig = f"{filename}_{location}"`. -/
def citationSig (filename location : String) : String :=
  filename ++ "_" ++ location

/-- The marker-resolution loop of `extract_citations`: `seen` holds the
`sig` strings of markers already resolved (a `sig` is only added when a chunk
matched). -/
def extractGo : List (String × String) → List String → List Chunk → List Citation
  | [], _, _ => []
  | (f, loc) :: ms, seen, chunks =>
    let filename := pyStrip f
    let location := pyStrip loc
    let sig := citationSig filename location
    if sig ∈ seen then extractGo ms seen chunks
    else
      match chunks.find? (fun c => chunkMatches filename location c) with
      | some chunk => mkCitation chunk :: extractGo ms (sig :: seen) chunks
      | none => extractGo ms seen chunks

/-- `extract_citations(answer_text, chunks)`. -/
def extract_citations (answer_text : String) (chunks : List Chunk) :
    List Citation :=
  extractGo (findMarkers answer_text.data) [] chunks

/-- `_format_evidence_snippet(chunk)`. -/
def format_evidence_snippet (chunk : Chunk) : String :=
  let snippet := pyStripList (chunk.text.data.map
    (fun c => if c = '\n' then ' ' else c))
  let snippet :=
    if 240 < snippet.length then pyRstripList (snippet.take 240) ++ "...".data
    else snippet
  ⟨"[".data ++ chunk.fileName.data ++ " | ".data ++ chunk.locationRef.data ++
    "] ".data ++ snippet⟩

/-- `_build_evidence_snippets(chunks, citations, limit)`; `none` models the
`citations=None` default (falsy exactly like `[]`). -/
def build_evidence_snippets (chunks : List Chunk)
    (citations : Option (List Citation)) (limit : ℕ) : List String :=
  if chunks = [] then []
  else
    let preferred : List Chunk :=
      match citations with
      | some cits =>
        if cits ≠ [] then
          chunks.filter (fun c => cits.any
            (fun ct => ct.fileName == c.fileName &&
              ct.locationRef == c.locationRef))
        else []
      | none => []
    let ordered := preferred ++ chunks.filter (fun c => c ∉ preferred)
    (ordered.take limit).map format_evidence_snippet

/-- The terminal payload of `ask_question`.  (The success payload's
`diagnostics` dict — logged inputs and the confidence details — is not
modelled; no claim mentions it.) -/
structure AnswerResult where
  answer : String
  confidenceTier : String
  confidenceScore : ℚ
  citations : List Citation
  evidenceSnippets : List String
  topChunkIds : List String

deriving Repr, DecidableEq

/-- `_not_found_response(subject_name, confidence_score, chunk_dicts)`. -/
def not_found_response (subject_name : String) (confidence_score : ℚ)
    (chunk_dicts : List Chunk) : AnswerResult :=
  { answer := NOT_FOUND_TEMPLATE subject_name
    confidenceTier := "NOT_FOUND"
    confidenceScore := roundQ4 confidence_score
    citations := []
    evidenceSnippets := build_evidence_snippets chunk_dicts none 3
    topChunkIds :=
      (chunk_dicts.filter (fun c => c.chunkId ≠ "")).map Chunk.chunkId }

/-- One retrieval result row of `collection.query` (document text, metadata
dict, distance). -/
structure RItem where
  text : String
  fileName : String
  locationRef : String
  sourceFormat : String
  chunkId : String
  distance : ℚ

deriving Repr, DecidableEq

/-- The outcomes of the pipeline's external calls, per invocation point:
`expand`/`rerank` are the flash-model calls, `embed` and `search` the
embedding and vector-store calls for a given query string, `generate` the
primary model call.  `Except.error` models the Python call raising. -/
structure Oracle where
  expand : Except String String
  embed : String → Except String Unit
  search : String → Except String (List RItem)
  rerank : Except String String
  generate : Except String String

/-- The trace of external calls `ask_question` makes, in order. -/
inductive ExtCall where
  | expandCall
  | embedCall (q : String)
  | searchCall (q : String)
  | rerankCall
  | generateCall

deriving Repr, DecidableEq

/-- The chunk dict built for one retrieval row:
`similarity = max(0.0, 1.0 - distance / 2.0)`. -/
def toChunk (it : RItem) : Chunk :=
  ⟨it.text, it.fileName, it.locationRef, it.sourceFormat, it.chunkId,
    max 0 (1 - it.distance / 2)⟩

/-- The retrieval loop of `ask_question` (step 3): per expanded query, embed
then search; either failure is fatal (`RAGError`); all result rows are
aggregated in order. -/
def retrieveLoop (o : Oracle) : List String → Except RAGError (List Chunk) × List ExtCall
  | [] => (.ok [], [])
  | q :: qs =>
    match o.embed q with
    | .error e =>
      (.error (.embedFailure ("Failed to embed query: " ++ e)), [.embedCall q])
    | .ok _ =>
      match o.search q with
      | .error e =>
        (.error (.vectorDbError ("Vector database error: " ++ e)),
          [.embedCall q, .searchCall q])
      | .ok items =>
        match retrieveLoop o qs with
        | (.error e, t) => (.error e, .embedCall q :: .searchCall q :: t)
        | (.ok rest, t) =>
          (.ok (items.map toChunk ++ rest), .embedCall q :: .searchCall q :: t)

/-- `ask_question(query, subject_id, subject_name, user_id, history)`.

The subject id scopes the collection the `search` oracle stands for;
`user_id` is unused by the Python body; `history` only shapes the prompt the
`generate` oracle stands for — none of the three affects the result beyond
the oracle outcomes, so the model takes the query, the subject display name
and the oracle.  The second component is the trace of external calls made. -/
def ask_question (query : QueryArg) (subject_name : String) (o : Oracle) :
    Except RAGError AnswerResult × List ExtCall :=
  match preprocessQuery query with
  | .error e => (.error e, [])
  | .ok (cleaned, keywords) =>
    let multi_queries := generate_multi_queries cleaned o.expand
    match retrieveLoop o multi_queries with
    | (.error e, t) => (.error e, .expandCall :: t)
    | (.ok all_chunk_dicts, t) =>
      let trace₀ := ExtCall.expandCall :: t
      let deduped := deduplicate_chunks all_chunk_dicts
      let reranked :=
        if 1 < deduped.length then rerank_chunks deduped o.rerank else deduped
      let trace₁ :=
        if 2 < deduped.length then trace₀ ++ [ExtCall.rerankCall] else trace₀
      let chunk_dicts := reranked.take 5
      if chunk_dicts = [] then
        (.ok (not_found_response subject_name 0 []), trace₁)
      else
        let similarities := chunk_dicts.map Chunk.similarity
        let chunk_texts := chunk_dicts.map Chunk.text
        let confidence := compute_confidence similarities keywords chunk_texts
        if confidence.tier = "NOT_FOUND" ∨ confidence.tier = "LOW" then
          (.ok (not_found_response subject_name confidence.score chunk_dicts),
            trace₁)
        else
          match o.generate with
          | .error e =>
            (.error (.generationFailure ("Failed to generate answer: " ++ e)),
              trace₁ ++ [ExtCall.generateCall])
          | .ok raw =>
            let answer_text := pyStrip raw
            if answer_text = "" ∨
                "not found in your notes".data.isPrefixOf
                  (pyLowerList answer_text.data) then
              (.ok (not_found_response subject_name confidence.score chunk_dicts),
                trace₁ ++ [ExtCall.generateCall])
            else
              let citations := extract_citations answer_text chunk_dicts
              if citations = [] then
                (.ok (not_found_response subject_name confidence.score chunk_dicts),
                  trace₁ ++ [ExtCall.generateCall])
              else
                (.ok { answer := answer_text
                       confidenceTier := confidence.tier
                       confidenceScore := confidence.score
                       citations := citations
                       evidenceSnippets :=
                         build_evidence_snippets chunk_dicts (some citations) 3
                       topChunkIds :=
                         (chunk_dicts.filter (fun c => c.chunkId ≠ "")).map
                           Chunk.chunkId },
                  trace₁ ++ [ExtCall.generateCall])

/-- A concrete oracle for witnesses; every external call succeeds trivially
and both flash-model calls fail. -/
def witnessOracle : Oracle where
  expand := .error "flash down"
  embed := fun _ => .ok ()
  search := fun _ => .ok []
  rerank := .error "flash down"
  generate := .ok ""

/-- A concrete oracle whose single retrieval row sits at distance `2`
(similarity `0`); both flash calls fail, generation succeeds. -/
def zeroSimOracle : Oracle where
  expand := .error "down"
  embed := fun _ => .ok ()
  search := fun _ =>
    .ok [⟨"Mitochondria are organelles", "bio.pdf", "Page 3", "pdf", "c1", 2⟩]
  rerank := .error "down"
  generate := .ok "whatever"

/-- A concrete oracle exercising the generation path: one retrieval row at
distance `1/10` (similarity `0.95`, tier `HIGH`), flash calls failing, and a
whitespace-only generated answer. -/
def genPathOracle : Oracle where
  expand := .error "down"
  embed := fun _ => .ok ()
  search := fun _ =>
    .ok [⟨"Mitochondria are organelles", "bio.pdf", "Page 3", "pdf", "c1", 1/10⟩]
  rerank := .error "down"
  generate := .ok "   "

/-- The chunk that `genPathOracle`'s single retrieval row becomes. -/
def genPathChunk : Chunk :=
  ⟨"Mitochondria are organelles", "bio.pdf", "Page 3", "pdf", "c1", 19/20⟩



theorem dedupGo_sublist (l : List Chunk) (seen : List String) :
    (dedupGo l seen).Sublist l := by
  induction l generalizing seen with
  | nil => simp [dedupGo]
  | cons c cs ih =>
    simp only [dedupGo]
    split
    · exact (ih seen).cons c
    · exact (ih (c.text :: seen)).cons₂ c

theorem dedupGo_text_not_seen (l : List Chunk) (seen : List String) :
    ∀ c ∈ dedupGo l seen, c.text ∉ seen := by
  induction l generalizing seen with
  | nil => simp [dedupGo]
  | cons c cs ih =>
    simp only [dedupGo]
    split
    · exact ih seen
    · intro d hd
      rcases List.mem_cons.mp hd with h | h
      · subst h; assumption
      · intro hmem
        exact ih (c.text :: seen) d h (List.mem_cons_of_mem _ hmem)

theorem dedupGo_nodup (l : List Chunk) (seen : List String) :
    ((dedupGo l seen).map Chunk.text).Nodup := by
  induction l generalizing seen with
  | nil => simp [dedupGo]
  | cons c cs ih =>
    simp only [dedupGo]
    split
    · exact ih seen
    · simp only [List.map_cons, List.nodup_cons]
      refine ⟨?_, ih (c.text :: seen)⟩
      intro hmem
      rcases List.mem_map.mp hmem with ⟨d, hd, hdt⟩
      exact dedupGo_text_not_seen cs (c.text :: seen) d hd
        (hdt ▸ List.mem_cons_self _ _)

theorem dedupGo_find? (l : List Chunk) (seen : List String) :
    ∀ c ∈ dedupGo l seen, l.find? (fun d => d.text == c.text) = some c := by
  induction l generalizing seen with
  | nil => simp [dedupGo]
  | cons c cs ih =>
    simp only [dedupGo]
    split
    · intro d hd
      have hd' : d.text ∉ seen := dedupGo_text_not_seen cs seen d hd
      have hne : (c.text == d.text) = false := by
        refine beq_eq_false_iff_ne.mpr ?_
        intro h
        exact hd' (h ▸ (by assumption))
      simp only [List.find?, hne]
      exact ih seen d hd
    · intro d hd
      rcases List.mem_cons.mp hd with h | h
      · subst h
        simp [List.find?]
      · have hd' : d.text ∉ c.text :: seen :=
          dedupGo_text_not_seen cs (c.text :: seen) d h
        have hne : (c.text == d.text) = false := by
          refine beq_eq_false_iff_ne.mpr ?_
          intro hEq
          exact hd' (hEq ▸ List.mem_cons_self _ _)
        simp only [List.find?, hne]
        exact ih (c.text :: seen) d h

theorem dedupGo_covers (l : List Chunk) (seen : List String) :
    ∀ c ∈ l, c.text ∈ seen ∨ ∃ c' ∈ dedupGo l seen, c'.text = c.text := by
  induction l generalizing seen with
  | nil => simp
  | cons c cs ih =>
    intro d hd
    simp only [dedupGo]
    rcases List.mem_cons.mp hd with h | h
    · subst h
      by_cases hc : d.text ∈ seen
      · exact Or.inl hc
      · right
        refine ⟨d, ?_, rfl⟩
        simp [if_neg hc]
    · by_cases hc : c.text ∈ seen
      · rcases ih seen d h with h' | ⟨c', hc', ht⟩
        · exact Or.inl h'
        · exact Or.inr ⟨c', by simp [if_pos hc, hc'], ht⟩
      · rcases ih (c.text :: seen) d h with h' | ⟨c', hc', ht⟩
        · rcases List.mem_cons.mp h' with h'' | h''
          · exact Or.inr ⟨c, by simp [if_neg hc], h''.symm⟩
          · exact Or.inl h''
        · exact Or.inr ⟨c', by simp [if_neg hc, List.mem_cons, hc'], ht⟩

theorem dedupGo_id_of_nodup (l : List Chunk) (seen : List String)
    (hnd : (l.map Chunk.text).Nodup) (hdis : ∀ c ∈ l, c.text ∉ seen) :
    dedupGo l seen = l := by
  induction l generalizing seen with
  | nil => simp [dedupGo]
  | cons c cs ih =>
    simp only [List.map_cons, List.nodup_cons] at hnd
    simp only [dedupGo, if_neg (hdis c (List.mem_cons_self _ _))]
    congr 1
    refine ih (c.text :: seen) hnd.2 ?_
    intro d hd hmem
    rcases List.mem_cons.mp hmem with h | h
    · exact hnd.1 (List.mem_map.mpr ⟨d, hd, h⟩)
    · exact hdis d (List.mem_cons_of_mem _ hd) h

theorem deduplicate_chunks_idem (chunks : List Chunk) :
    deduplicate_chunks (deduplicate_chunks chunks) = deduplicate_chunks chunks := by
  by_cases h : chunks.length ≤ 1
  · simp [deduplicate_chunks, if_pos h]
  · have hd : deduplicate_chunks chunks = dedupGo chunks [] := by
      simp [deduplicate_chunks, if_neg h]
    rw [hd]
    by_cases h2 : (dedupGo chunks []).length ≤ 1
    · simp [deduplicate_chunks, if_pos h2]
    · simp only [deduplicate_chunks, if_neg h2]
      exact dedupGo_id_of_nodup _ _ (dedupGo_nodup chunks []) (by simp)

/-- **C8.**  `_deduplicate_chunks` keeps, in input order (sublist), exactly the
first chunk of each distinct text value: the output's texts are pairwise
distinct, each output chunk is the first input chunk carrying its text, every
input text is still represented, and the operation is idempotent.
(Python's `hash` fingerprint is modelled as injective on texts, the assumption
the code documents.) -/
theorem deduplicate_chunks_spec (chunks : List Chunk) :
    (deduplicate_chunks chunks).Sublist chunks ∧
    ((deduplicate_chunks chunks).map Chunk.text).Nodup ∧
    (∀ c ∈ deduplicate_chunks chunks,
      chunks.find? (fun d => d.text == c.text) = some c) ∧
    (∀ c ∈ chunks, ∃ c' ∈ deduplicate_chunks chunks, c'.text = c.text) ∧
    deduplicate_chunks (deduplicate_chunks chunks) = deduplicate_chunks chunks := by
  by_cases h : chunks.length ≤ 1
  · refine ⟨?_, ?_, ?_, ?_, deduplicate_chunks_idem chunks⟩ <;>
      simp only [deduplicate_chunks, if_pos h]
    · exact List.Sublist.refl chunks
    · match chunks, h with
      | [], _ => simp
      | [c], _ => simp
    · match chunks, h with
      | [], _ => simp
      | [c], _ => intro d hd; simp at hd; subst hd; simp [List.find?]
    · intro c hc; exact ⟨c, hc, rfl⟩
  · refine ⟨?_, ?_, ?_, ?_, deduplicate_chunks_idem chunks⟩ <;>
      simp only [deduplicate_chunks, if_neg h]
    · exact dedupGo_sublist chunks []
    · exact dedupGo_nodup chunks []
    · exact dedupGo_find? chunks []
    · intro c hc
      rcases dedupGo_covers chunks [] c hc with h' | h'
      · simp at h'
      · exact h'

theorem toNat_ofNat_small (m : Nat) (h : m < 55296) : (Char.ofNat m).toNat = m := by
  rw [Char.ofNat, dif_pos (Or.inl h)]
  simp [Char.ofNatAux, Char.toNat, UInt32.toNat, BitVec.toNat_ofNatLt]

theorem pyLowerChar_idem (c : Char) : pyLowerChar (pyLowerChar c) = pyLowerChar c := by
  unfold pyLowerChar
  by_cases h : 65 ≤ c.toNat ∧ c.toNat ≤ 90
  · rw [if_pos h]
    have ht : (Char.ofNat (c.toNat + 32)).toNat = c.toNat + 32 :=
      toNat_ofNat_small _ (by omega)
    rw [if_neg]
    rw [ht]
    omega
  · rw [if_neg h, if_neg h]

theorem splitWordsAux_mem_subset (l : List Char) (acc : List Char) :
    ∀ w ∈ splitWordsAux l acc, ∀ c ∈ w, c ∈ l ∨ c ∈ acc := by
  induction l generalizing acc with
  | nil =>
    intro w hw
    simp only [splitWordsAux] at hw
    split at hw
    · simp at hw
    · simp only [List.mem_singleton] at hw
      subst hw
      intro c hc
      exact Or.inr (List.mem_reverse.mp hc)
  | cons a l ih =>
    intro w hw c hc
    simp only [splitWordsAux] at hw
    by_cases ha : a = ' '
    · rw [if_pos ha] at hw
      split at hw
      · rcases ih [] w hw c hc with h | h
        · exact Or.inl (List.mem_cons_of_mem _ h)
        · simp at h
      · rcases List.mem_cons.mp hw with h | h
        · subst h
          exact Or.inr (List.mem_reverse.mp hc)
        · rcases ih [] w h c hc with h' | h'
          · exact Or.inl (List.mem_cons_of_mem _ h')
          · simp at h'
    · rw [if_neg ha] at hw
      rcases ih (a :: acc) w hw c hc with h | h
      · exact Or.inl (List.mem_cons_of_mem _ h)
      · rcases List.mem_cons.mp h with h' | h'
        · exact Or.inl (h' ▸ List.mem_cons_self _ _)
        · exact Or.inr h'

theorem stripPunct_subset (l : List Char) : ∀ c ∈ stripPunct l, c ∈ l := by
  intro c hc
  unfold stripPunct at hc
  exact List.dropWhile_subset _
    (List.mem_reverse.mp (List.dropWhile_subset _ (List.mem_reverse.mp hc)))

theorem head?_dropWhile (p : Char → Bool) :
    ∀ (l : List Char) (c : Char), (l.dropWhile p).head? = some c → p c = false := by
  intro l
  induction l with
  | nil => intro c h; simp [List.dropWhile] at h
  | cons a l ih =>
    intro c h
    by_cases ha : p a
    · rw [List.dropWhile_cons_of_pos ha] at h
      exact ih c h
    · rw [List.dropWhile_cons_of_neg ha] at h
      simp only [List.head?_cons, Option.some.injEq] at h
      subst h
      exact Bool.eq_false_iff.mpr ha

theorem getLast?_dropWhile (p : Char → Bool) :
    ∀ (l : List Char), l.dropWhile p ≠ [] → (l.dropWhile p).getLast? = l.getLast? := by
  intro l
  induction l with
  | nil => intro h; simp [List.dropWhile] at h
  | cons a l ih =>
    intro h
    by_cases ha : p a
    · rw [List.dropWhile_cons_of_pos ha] at h ⊢
      rw [ih h]
      have hl : l ≠ [] := by
        intro hl
        subst hl
        simp [List.dropWhile] at h
      match l, hl with
      | b :: l', _ => simp [List.getLast?_cons_cons]
    · rw [List.dropWhile_cons_of_neg ha]

/-- The first and last characters of a non-empty `stripPunct` result are not
punctuation characters. -/
theorem stripPunct_boundary (l : List Char) :
    (∀ c, (stripPunct l).head? = some c → c ∉ keywordPunct) ∧
    (∀ c, (stripPunct l).getLast? = some c → c ∉ keywordPunct) := by
  unfold stripPunct
  constructor
  · intro c hc
    set r := l.dropWhile (fun c => decide (c ∈ keywordPunct)) with hr
    have hne : r.reverse.dropWhile (fun c => decide (c ∈ keywordPunct)) ≠ [] := by
      intro h
      rw [h] at hc
      simp at hc
    rw [List.head?_reverse, getLast?_dropWhile _ _ hne, List.getLast?_reverse] at hc
    have := head?_dropWhile (fun c => decide (c ∈ keywordPunct)) l c hc
    simpa using this
  · intro c hc
    rw [List.getLast?_reverse] at hc
    have := head?_dropWhile (fun c => decide (c ∈ keywordPunct)) _ c hc
    simpa using this

/-- The keyword loop, written by the spec's recipe: strip punctuation from
every token (in token order), then keep exactly the tokens that are not stop
words and have at least 3 characters.  Equal to the code's single-pass loop. -/
theorem keywordsOf_eq_filter_map (words : List (List Char)) :
    keywordsOf words =
      (words.map (fun w => (⟨stripPunct w⟩ : String))).filter
        (fun kw => decide (kw ∉ stop_words ∧ 3 ≤ kw.length)) := by
  induction words with
  | nil => rfl
  | cons w ws ih =>
    simp only [keywordsOf] at ih ⊢
    simp only [List.filterMap_cons, List.map_cons, List.filter_cons]
    by_cases hcond : (⟨stripPunct w⟩ : String) ∉ stop_words ∧ 2 < (stripPunct w).length
    · rw [if_pos hcond]
      have hd : (decide ((⟨stripPunct w⟩ : String) ∉ stop_words ∧
          3 ≤ (⟨stripPunct w⟩ : String).length)) = true :=
        decide_eq_true (by exact hcond)
      rw [hd, ih]
      rfl
    · rw [if_neg hcond]
      have hd : (decide ((⟨stripPunct w⟩ : String) ∉ stop_words ∧
          3 ≤ (⟨stripPunct w⟩ : String).length)) = false :=
        decide_eq_false (by exact hcond)
      rw [hd, ih]
      rfl

/-- **C9 (amended).**  For every valid query, the keyword list is exactly the
whitespace-delimited tokens of the lower-cased cleaned query, in first-found
token order, each with the boundary punctuation `.,?!:;()[]\x7b\x7d` stripped,
restricted to those that are not stop words and have at least 3 characters;
each keyword is fully lower-case and its boundary characters are not
punctuation characters.  The list is **not** deduplicated: the same keyword
may appear more than once (see the counterexample). -/
theorem preprocess_keywords_spec (s cleaned : String) (keywords : List String)
    (h : preprocessQuery (.ofStr s) = .ok (cleaned, keywords)) :
    keywords =
      ((splitWords (pyLowerList cleaned.data)).map
        (fun w => (⟨stripPunct w⟩ : String))).filter
        (fun kw => decide (kw ∉ stop_words ∧ 3 ≤ kw.length)) ∧
    ∀ kw ∈ keywords,
      kw ∉ stop_words ∧
      3 ≤ kw.length ∧
      pyLowerList kw.data = kw.data ∧
      (∀ c, kw.data.head? = some c → c ∉ keywordPunct) ∧
      (∀ c, kw.data.getLast? = some c → c ∉ keywordPunct) ∧
      (∃ w ∈ splitWords (pyLowerList cleaned.data), kw.data = stripPunct w) := by
  have hvalid : ¬ (s = "" ∨ pyStrip s = "") := by
    intro hbad
    simp only [preprocessQuery] at h
    rw [if_pos hbad] at h
    exact absurd h (by simp)
  simp only [preprocessQuery] at h
  rw [if_neg hvalid] at h
  simp only [Except.ok.injEq, Prod.mk.injEq] at h
  obtain ⟨hc, hk⟩ := h
  subst hc
  refine ⟨?_, ?_⟩
  · rw [← hk]
    exact keywordsOf_eq_filter_map _
  intro kw hkw
  rw [← hk] at hkw
  rcases List.mem_filterMap.mp hkw with ⟨w, hw, hval⟩
  by_cases hcond : (⟨stripPunct w⟩ : String) ∉ stop_words ∧ 2 < (stripPunct w).length
  · rw [if_pos hcond] at hval
    have hkweq : kw = (⟨stripPunct w⟩ : String) := by
      simpa using hval.symm
    subst hkweq
    refine ⟨hcond.1, hcond.2, ?_, ?_, ?_, ⟨w, hw, rfl⟩⟩
    · show pyLowerList (stripPunct w) = stripPunct w
      have hfix : ∀ c ∈ stripPunct w, pyLowerChar c = c := by
        intro c hc
        have hcw : c ∈ w := stripPunct_subset w c hc
        have hcl : c ∈ pyLowerList (stripLeadingPunct (pyStripList (collapseWs s.data))) := by
          rcases splitWordsAux_mem_subset _ [] w hw c hcw with h' | h'
          · exact h'
          · simp at h'
        rcases List.mem_map.mp hcl with ⟨c₀, _, hc₀⟩
        subst hc₀
        exact pyLowerChar_idem c₀
      exact (List.map_congr_left hfix).trans (List.map_id _)
    · exact fun c hc => (stripPunct_boundary w).1 c hc
    · exact fun c hc => (stripPunct_boundary w).2 c hc
  · rw [if_neg hcond] at hval
    exact absurd hval (by simp)

/-- **C9 (counterexample).**  The claim says each keyword "appears at most
once in the output" (a set); but `_preprocess_query` does not deduplicate:
the valid query `"cell cell"` yields the keyword list `["cell", "cell"]`,
which has a repeated element. -/
theorem preprocess_keywords_cex :
    preprocessQuery (.ofStr "cell cell") = .ok ("cell cell", ["cell", "cell"]) ∧
    ¬ (["cell", "cell"] : List String).Nodup := by
  constructor
  · decide
  · simp

/-- Witness for `preprocess_keywords_spec` at the query
`"What is photosynthesis?"`, whose keyword list is `["photosynthesis"]`. -/
theorem preprocess_keywords_spec_witness :
    (["photosynthesis"] : List String) =
      ((splitWords (pyLowerList "What is photosynthesis?".data)).map
        (fun w => (⟨stripPunct w⟩ : String))).filter
        (fun kw => decide (kw ∉ stop_words ∧ 3 ≤ kw.length)) ∧
    ∀ kw ∈ (["photosynthesis"] : List String),
      kw ∉ stop_words ∧
      3 ≤ kw.length ∧
      pyLowerList kw.data = kw.data ∧
      (∀ c, kw.data.head? = some c → c ∉ keywordPunct) ∧
      (∀ c, kw.data.getLast? = some c → c ∉ keywordPunct) ∧
      (∃ w ∈ splitWords (pyLowerList "What is photosynthesis?".data),
        kw.data = stripPunct w) :=
  preprocess_keywords_spec "What is photosynthesis?" "What is photosynthesis?"
    ["photosynthesis"] (by decide)

/-- **C5.**  An empty, whitespace-only, or non-string query is rejected with
the pipeline's validation error before any external call is made (the call
trace is empty). -/
theorem ask_question_invalid_query (subject : String) (o : Oracle) :
    (∀ s : String, pyStrip s = "" →
      ask_question (.ofStr s) subject o = (.error .invalidQuery, [])) ∧
    ask_question .nonString subject o = (.error .invalidQuery, []) := by
  constructor
  · intro s hs
    simp only [ask_question, preprocessQuery]
    rw [if_pos (Or.inr hs)]
  · rfl

/-- Witness for `ask_question_invalid_query`: the whitespace query `"   "`. -/
theorem ask_question_invalid_query_witness :
    ask_question (.ofStr "   ") "Biology" witnessOracle =
      (.error .invalidQuery, []) :=
  (ask_question_invalid_query "Biology" witnessOracle).1 "   " (by decide)

theorem retrieveLoop_ok (o : Oracle) (qs : List String)
    (hembed : ∀ q, o.embed q = .ok ())
    (hsearch : ∀ q, ∃ items, o.search q = .ok items) :
    ∃ chunks t, retrieveLoop o qs = (.ok chunks, t) := by
  induction qs with
  | nil => exact ⟨[], [], rfl⟩
  | cons q qs ih =>
    obtain ⟨items, hit⟩ := hsearch q
    obtain ⟨chunks, t, hr⟩ := ih
    refine ⟨items.map toChunk ++ chunks,
      .embedCall q :: .searchCall q :: t, ?_⟩
    simp only [retrieveLoop, hembed q, hit, hr]

/-- **C6.**  Query expansion degrades to `[original]` on any flash-model
failure; re-ranking returns its input unchanged on any flash-model failure
and also whenever it holds at most 2 chunks; and no failure of either stage
surfaces from `ask_question`: whenever the query is valid and the embedding,
search and generation calls succeed, `ask_question` returns a result — for
every outcome (including failure) of the expansion and re-ranking calls. -/
theorem best_effort_degradation :
    (∀ (q e : String), generate_multi_queries q (.error e) = [q]) ∧
    (∀ (chunks : List Chunk) (e : String),
      rerank_chunks chunks (.error e) = chunks) ∧
    (∀ (chunks : List Chunk) (flash : Except String String),
      chunks.length ≤ 2 → rerank_chunks chunks flash = chunks) ∧
    (∀ (query : QueryArg) (subject : String) (o : Oracle)
      (cleaned : String) (keywords : List String),
      preprocessQuery query = .ok (cleaned, keywords) →
      (∀ q, o.embed q = .ok ()) →
      (∀ q, ∃ items, o.search q = .ok items) →
      (∃ raw, o.generate = .ok raw) →
      ∃ r t, ask_question query subject o = (.ok r, t)) := by
  refine ⟨fun q e => rfl, ?_, ?_, ?_⟩
  · intro chunks e
    unfold rerank_chunks
    split <;> rfl
  · intro chunks flash h
    unfold rerank_chunks
    rw [if_pos h]
  · intro query subject o cleaned keywords hpre hembed hsearch hgen
    obtain ⟨chunks, t, hr⟩ :=
      retrieveLoop_ok o (generate_multi_queries cleaned o.expand) hembed hsearch
    obtain ⟨raw, hraw⟩ := hgen
    simp only [ask_question, hpre, hr, hraw]
    repeat' split
    all_goals exact ⟨_, _, rfl⟩

/-- Witness for `best_effort_degradation`: its parts instantiated at an
expansion failure, a re-ranking failure, a 2-chunk list, and an oracle whose
flash calls both fail while retrieval finds nothing. -/
theorem best_effort_degradation_witness :
    generate_multi_queries "what is dna" (.error "boom") = ["what is dna"] ∧
    rerank_chunks [] (.error "boom") = [] ∧
    (∃ r t, ask_question (.ofStr "what is dna") "Biology" witnessOracle =
      (.ok r, t)) := by
  refine ⟨best_effort_degradation.1 "what is dna" "boom",
    best_effort_degradation.2.1 [] "boom",
    best_effort_degradation.2.2.2 (.ofStr "what is dna") "Biology" witnessOracle
      "what is dna" ["dna"] (by decide) (fun q => rfl) (fun q => ⟨[], rfl⟩)
      ⟨"", rfl⟩⟩

/-- **C1.**  For every result `ask_question` returns, the confidence tier is
`NOT_FOUND` or `LOW` exactly when the answer is the fixed refusal template
(interpolated with the subject name) and the citations list is empty; and
every result whose tier is `MEDIUM` or `HIGH` carries at least one validated
citation (an answer resolving to zero citations is demoted to the refusal
response before being returned). -/
theorem ask_question_confidence_invariant (query : QueryArg) (subject : String)
    (o : Oracle) (r : AnswerResult) (t : List ExtCall)
    (h : ask_question query subject o = (.ok r, t)) :
    ((r.confidenceTier = "NOT_FOUND" ∨ r.confidenceTier = "LOW") ↔
      (r.answer = NOT_FOUND_TEMPLATE subject ∧ r.citations = [])) ∧
    ((r.confidenceTier = "MEDIUM" ∨ r.confidenceTier = "HIGH") →
      r.citations ≠ []) := by
  simp only [ask_question] at h
  repeat' split at h
  all_goals simp only [Prod.mk.injEq, Except.ok.injEq, reduceCtorEq,
    false_and, and_false] at h
  all_goals obtain ⟨hr, -⟩ := h
  all_goals subst hr
  all_goals
    first
    | (refine ⟨?_, ?_⟩
       · simp [not_found_response]
       · intro hMH
         rcases hMH with hM | hM <;> simp [not_found_response] at hM)
    | (refine ⟨⟨fun hL => ?_, fun hRC => ?_⟩, fun _ => ?_⟩
       · exact absurd hL (by assumption)
       · exact absurd hRC.2 (by assumption)
       · assumption)

theorem foldl_add_le_mul (l : List ℚ) (b : ℚ) :
    ∀ c, (∀ x ∈ l, x ≤ b) → l.foldl (· + ·) c ≤ c + b * l.length := by
  induction l with
  | nil => intro c _; simp
  | cons x xs ih =>
    intro c h
    simp only [List.foldl_cons, List.length_cons]
    have h1 := ih (c + x) (fun y hy => h y (List.mem_cons_of_mem _ hy))
    have h2 := h x (List.mem_cons_self _ _)
    push_cast
    push_cast at h1
    linarith

theorem foldl_add_ge_mul (l : List ℚ) (b : ℚ) :
    ∀ c, (∀ x ∈ l, b ≤ x) → c + b * l.length ≤ l.foldl (· + ·) c := by
  induction l with
  | nil => intro c _; simp
  | cons x xs ih =>
    intro c h
    simp only [List.foldl_cons, List.length_cons]
    have h1 := ih (c + x) (fun y hy => h y (List.mem_cons_of_mem _ hy))
    have h2 := h x (List.mem_cons_self _ _)
    push_cast
    push_cast at h1
    linarith

theorem foldl_max_lt_of_lt (l : List ℚ) (b : ℚ) :
    ∀ s, s < b → (∀ x ∈ l, x < b) → l.foldl max s < b := by
  induction l with
  | nil => intro s hs _; simpa using hs
  | cons x xs ih =>
    intro s hs h
    simp only [List.foldl_cons]
    exact ih _ (max_lt hs (h x (List.mem_cons_self _ _)))
      (fun y hy => h y (List.mem_cons_of_mem _ hy))

theorem foldl_max_le_of_le (l : List ℚ) (b : ℚ) :
    ∀ s, s ≤ b → (∀ x ∈ l, x ≤ b) → l.foldl max s ≤ b := by
  induction l with
  | nil => intro s hs _; simpa using hs
  | cons x xs ih =>
    intro s hs h
    simp only [List.foldl_cons]
    exact ih _ (max_le hs (h x (List.mem_cons_self _ _)))
      (fun y hy => h y (List.mem_cons_of_mem _ hy))

theorem le_foldl_max (l : List ℚ) : ∀ s, s ≤ l.foldl max s := by
  induction l with
  | nil => intro s; simp
  | cons x xs ih =>
    intro s
    simp only [List.foldl_cons]
    exact le_trans (le_max_left s x) (ih (max s x))

theorem foldl_sq_nonneg (l : List ℚ) (m : ℚ) :
    ∀ c, 0 ≤ c → 0 ≤ l.foldl (fun acc x => acc + (x - m) ^ 2) c := by
  induction l with
  | nil => intro c hc; simpa using hc
  | cons x xs ih =>
    intro c hc
    simp only [List.foldl_cons]
    exact ih _ (by positivity)

theorem foldl_sq_le_mul (l : List ℚ) (m B : ℚ) (hB : ∀ x ∈ l, (x - m) ^ 2 ≤ B) :
    ∀ c, l.foldl (fun acc x => acc + (x - m) ^ 2) c ≤ c + B * l.length := by
  induction l with
  | nil => intro c; simp
  | cons x xs ih =>
    intro c
    simp only [List.foldl_cons, List.length_cons]
    have h1 := ih (fun y hy => hB y (List.mem_cons_of_mem _ hy)) (c + (x - m) ^ 2)
    have h2 := hB x (List.mem_cons_self _ _)
    push_cast
    push_cast at h1
    linarith

theorem weighted_lt_notfound (M A B V : ℚ) (hM : M < 11/20) (hA : A < 11/20)
    (hB0 : 0 ≤ B) (hB : B ≤ 1/20) (hV : 0 ≤ V) :
    max 0 (min 1 (0.75 * M + 0.25 * A + B - 0.15 * V)) < THRESHOLD_NOT_FOUND := by
  unfold THRESHOLD_NOT_FOUND
  refine max_lt (by norm_num) (lt_of_le_of_lt (min_le_right _ _) ?_)
  have h075 : (0.75 : ℚ) = 3/4 := by norm_num
  have h025 : (0.25 : ℚ) = 1/4 := by norm_num
  have h015 : (0.15 : ℚ) = 3/20 := by norm_num
  have h060 : (0.60 : ℚ) = 3/5 := by norm_num
  rw [h075, h025, h015, h060]
  nlinarith

theorem weighted_ge_high (M A B V : ℚ) (hM1 : 19/20 ≤ M) (hM2 : M ≤ 1)
    (hA1 : 19/20 ≤ A) (hA2 : A ≤ 1) (hB0 : 0 ≤ B) (hV0 : 0 ≤ V)
    (hV : V ≤ 1/400) :
    9/10 ≤ max 0 (min 1 (0.75 * M + 0.25 * A + B - 0.15 * V)) := by
  have h075 : (0.75 : ℚ) = 3/4 := by norm_num
  have h025 : (0.25 : ℚ) = 1/4 := by norm_num
  have h015 : (0.15 : ℚ) = 3/20 := by norm_num
  rw [h075, h025, h015]
  refine le_trans ?_ (le_max_right _ _)
  refine le_min (by norm_num) ?_
  nlinarith

theorem tier_of_lt_notfound (w : ℚ) (hw : w < THRESHOLD_NOT_FOUND) :
    (if w < THRESHOLD_NOT_FOUND then "NOT_FOUND"
     else if w < THRESHOLD_LOW then "LOW"
     else if w < THRESHOLD_MEDIUM then "MEDIUM" else "HIGH") = "NOT_FOUND" :=
  if_pos hw

theorem tier_of_ge_high (w : ℚ) (hw : 9/10 ≤ w) :
    (if w < THRESHOLD_NOT_FOUND then "NOT_FOUND"
     else if w < THRESHOLD_LOW then "LOW"
     else if w < THRESHOLD_MEDIUM then "MEDIUM" else "HIGH") = "HIGH" := by
  have h1 : ¬ w < THRESHOLD_NOT_FOUND := by
    unfold THRESHOLD_NOT_FOUND
    intro hlt
    norm_num at hlt
    linarith
  have h2 : ¬ w < THRESHOLD_LOW := by
    unfold THRESHOLD_LOW
    intro hlt
    norm_num at hlt
    linarith
  have h3 : ¬ w < THRESHOLD_MEDIUM := by
    unfold THRESHOLD_MEDIUM
    intro hlt
    norm_num at hlt
    linarith
  rw [if_neg h1, if_neg h2, if_neg h3]

theorem weighted_lt_notfound_of_le (M A V : ℚ) (hM : M ≤ 11/20)
    (hA : A ≤ 11/20) (hV : 0 ≤ V) :
    max 0 (min 1 (0.75 * M + 0.25 * A + 0 - 0.15 * V)) < THRESHOLD_NOT_FOUND := by
  unfold THRESHOLD_NOT_FOUND
  refine max_lt (by norm_num) (lt_of_le_of_lt (min_le_right _ _) ?_)
  have h075 : (0.75 : ℚ) = 3/4 := by norm_num
  have h025 : (0.25 : ℚ) = 1/4 := by norm_num
  have h015 : (0.15 : ℚ) = 3/20 := by norm_num
  have h060 : (0.60 : ℚ) = 3/5 := by norm_num
  rw [h075, h025, h015, h060]
  nlinarith

/-- `compute_confidence` assigns `NOT_FOUND` to every non-empty similarity
list whose members are all below `0.55`, for any optional arguments. -/
theorem compute_confidence_notfound_of_lt (s : ℚ) (rest : List ℚ)
    (ks ts : List String) (h : ∀ x ∈ s :: rest, x < 11/20) :
    (compute_confidence (s :: rest) ks ts).tier = "NOT_FOUND" := by
  have hn : (0 : ℚ) < ((s :: rest).length : ℚ) := by
    exact_mod_cast Nat.succ_pos rest.length
  simp only [compute_confidence]
  apply tier_of_lt_notfound
  apply weighted_lt_notfound
  · exact foldl_max_lt_of_lt rest _ s (h s (List.mem_cons_self _ _))
      (fun x hx => h x (List.mem_cons_of_mem _ hx))
  · rw [div_lt_iff hn]
    simp only [List.foldl_cons, List.length_cons]
    have h1 := foldl_add_le_mul rest (11/20) (0 + s)
      (fun y hy => le_of_lt (h y (List.mem_cons_of_mem _ hy)))
    have h2 := h s (List.mem_cons_self _ _)
    push_cast
    push_cast at h1
    linarith
  · split
    · refine le_min (by norm_num) ?_
      positivity
    · exact le_rfl
  · split
    · exact le_trans (min_le_left _ _) (by norm_num)
    · norm_num
  · refine div_nonneg ?_ (by positivity)
    exact foldl_sq_nonneg _ _ 0 le_rfl

/-- `compute_confidence` assigns `HIGH` to every non-empty similarity list
whose members all lie in `[0.95, 1]`, for any optional arguments. -/
theorem compute_confidence_high_of_ge (s : ℚ) (rest : List ℚ)
    (ks ts : List String) (h : ∀ x ∈ s :: rest, 19/20 ≤ x ∧ x ≤ 1) :
    (compute_confidence (s :: rest) ks ts).tier = "HIGH" := by
  have hn : (0 : ℚ) < ((s :: rest).length : ℚ) := by
    exact_mod_cast Nat.succ_pos rest.length
  have havg1 : 19/20 ≤ (s :: rest).foldl (· + ·) 0 / ((s :: rest).length : ℚ) := by
    rw [le_div_iff hn]
    simp only [List.foldl_cons, List.length_cons]
    have h1 := foldl_add_ge_mul rest (19/20) (0 + s)
      (fun y hy => (h y (List.mem_cons_of_mem _ hy)).1)
    have h2 := (h s (List.mem_cons_self _ _)).1
    push_cast
    push_cast at h1
    linarith
  have havg2 : (s :: rest).foldl (· + ·) 0 / ((s :: rest).length : ℚ) ≤ 1 := by
    rw [div_le_iff hn]
    simp only [List.foldl_cons, List.length_cons]
    have h1 := foldl_add_le_mul rest 1 (0 + s)
      (fun y hy => (h y (List.mem_cons_of_mem _ hy)).2)
    have h2 := (h s (List.mem_cons_self _ _)).2
    push_cast
    push_cast at h1
    linarith
  simp only [compute_confidence]
  apply tier_of_ge_high
  apply weighted_ge_high
  · exact le_trans (h s (List.mem_cons_self _ _)).1 (le_foldl_max rest s)
  · exact foldl_max_le_of_le rest _ s (h s (List.mem_cons_self _ _)).2
      (fun x hx => (h x (List.mem_cons_of_mem _ hx)).2)
  · exact havg1
  · exact havg2
  · split
    · refine le_min (by norm_num) ?_
      positivity
    · exact le_rfl
  · refine div_nonneg ?_ (by positivity)
    exact foldl_sq_nonneg _ _ 0 le_rfl
  · rw [div_le_iff hn]
    refine le_trans (foldl_sq_le_mul (s :: rest) _ (1/400) ?_ 0) (by simp)
    intro x hx
    have hx1 := (h x hx).1
    have hx2 := (h x hx).2
    have hsq : (x - (s :: rest).foldl (· + ·) 0 / ((s :: rest).length : ℚ)) ^ 2
        ≤ (1/20 : ℚ) ^ 2 := by
      apply sq_le_sq'
      · linarith
      · linarith
    calc (x - (s :: rest).foldl (· + ·) 0 / ((s :: rest).length : ℚ)) ^ 2
        ≤ (1/20 : ℚ) ^ 2 := hsq
      _ = 1/400 := by norm_num

/-- The default-argument case of the `NOT_FOUND` bound: all similarities
`≤ 0.55` and no keyword/chunk-text arguments (so no keyword bonus). -/
theorem compute_confidence_notfound_of_le_default (s : ℚ) (rest : List ℚ)
    (h : ∀ x ∈ s :: rest, x ≤ 11/20) :
    (compute_confidence (s :: rest)).tier = "NOT_FOUND" := by
  have hn : (0 : ℚ) < ((s :: rest).length : ℚ) := by
    exact_mod_cast Nat.succ_pos rest.length
  simp only [compute_confidence]
  rw [if_neg (by simp : ¬ (([] : List String) ≠ [] ∧ ([] : List String) ≠ []))]
  apply tier_of_lt_notfound
  apply weighted_lt_notfound_of_le
  · exact foldl_max_le_of_le rest _ s (h s (List.mem_cons_self _ _))
      (fun x hx => h x (List.mem_cons_of_mem _ hx))
  · rw [div_le_iff hn]
    simp only [List.foldl_cons, List.length_cons]
    have h1 := foldl_add_le_mul rest (11/20) (0 + s)
      (fun y hy => h y (List.mem_cons_of_mem _ hy))
    have h2 := h s (List.mem_cons_self _ _)
    push_cast
    push_cast at h1
    linarith
  · refine div_nonneg ?_ (by positivity)
    exact foldl_sq_nonneg _ _ 0 le_rfl

/-- **C3 (amended).**  For every non-empty similarity list whose values all
lie in `[0.95, 1]`, `compute_confidence` returns `HIGH` for any optional
arguments.  For every non-empty similarity list whose values are all
*strictly below* `0.55`, it returns `NOT_FOUND` for any optional arguments;
with values merely `≤ 0.55` this still holds when no keyword/chunk-text
arguments are supplied — but not for arbitrary optional arguments, because a
full keyword bonus (`+0.05`) lifts an all-`0.55` list exactly to the `0.60`
threshold (see the counterexample). -/
theorem compute_confidence_extremes :
    (∀ (s : ℚ) (rest : List ℚ) (ks ts : List String),
      (∀ x ∈ s :: rest, 19/20 ≤ x ∧ x ≤ 1) →
      (compute_confidence (s :: rest) ks ts).tier = "HIGH") ∧
    (∀ (s : ℚ) (rest : List ℚ) (ks ts : List String),
      (∀ x ∈ s :: rest, x < 11/20) →
      (compute_confidence (s :: rest) ks ts).tier = "NOT_FOUND") ∧
    (∀ (s : ℚ) (rest : List ℚ),
      (∀ x ∈ s :: rest, x ≤ 11/20) →
      (compute_confidence (s :: rest)).tier = "NOT_FOUND") :=
  ⟨compute_confidence_high_of_ge, compute_confidence_notfound_of_lt,
    compute_confidence_notfound_of_le_default⟩

/-- **C3 (counterexample).**  The similarity list `[0.55]` satisfies "every
value at most 0.55", yet with keyword `"x"` matching chunk text `"x"` the
full keyword bonus raises the weighted score to exactly `0.60`, which the
threshold map classifies as `LOW`, not `NOT_FOUND`. -/
theorem compute_confidence_boundary_cex :
    (∀ x ∈ ([0.55] : List ℚ), x ≤ 0.55) ∧
    (compute_confidence [0.55] ["x"] ["x"]).score = 0.6 ∧
    (compute_confidence [0.55] ["x"] ["x"]).tier = "LOW" := by
  refine ⟨by intro x hx; simp at hx; simp [hx], ?_, ?_⟩ <;>
    norm_num [compute_confidence, roundQ4, roundHalfEven, max_def, min_def,
      THRESHOLD_NOT_FOUND, THRESHOLD_LOW, THRESHOLD_MEDIUM, pyInfix,
      pyLowerList, pyLowerChar, List.tails, List.isPrefixOf]

/-- Witness for `compute_confidence_extremes` at `[0.95]`, `[0.5]` and
`[0.55]`. -/
theorem compute_confidence_extremes_witness :
    (compute_confidence [0.95] ["k"] ["t"]).tier = "HIGH" ∧
    (compute_confidence [0.5] ["k"] ["t"]).tier = "NOT_FOUND" ∧
    (compute_confidence [0.55]).tier = "NOT_FOUND" :=
  ⟨compute_confidence_extremes.1 0.95 [] ["k"] ["t"]
      (by intro x hx; simp at hx; subst hx; constructor <;> norm_num),
    compute_confidence_extremes.2.1 0.5 [] ["k"] ["t"]
      (by intro x hx; simp at hx; subst hx; norm_num),
    compute_confidence_extremes.2.2 0.55 []
      (by intro x hx; simp at hx; subst hx; norm_num)⟩

/-- **C2 (counterexample).**  For `[0.95, 0.40, 0.35]` versus
`[0.80, 0.81, 0.79]` (no keywords or chunk texts), the first list does *not*
score strictly lower than the second, and the two lists map to the same
tier. -/
theorem confidence_variance_cex :
    ¬ ((compute_confidence [0.95, 0.40, 0.35]).score <
        (compute_confidence [0.80, 0.81, 0.79]).score) ∧
    (compute_confidence [0.95, 0.40, 0.35]).tier =
      (compute_confidence [0.80, 0.81, 0.79]).tier := by
  constructor <;>
    norm_num [compute_confidence, roundQ4, roundHalfEven, max_def, min_def,
      THRESHOLD_NOT_FOUND, THRESHOLD_LOW, THRESHOLD_MEDIUM]

/-- **C2 (amended).**  `compute_confidence` scores `[0.95, 0.40, 0.35]` at
`0.8431` and `[0.80, 0.81, 0.79]` at `0.8075`: the variance penalty and the
average term demote the first list below its maximum value `0.95`, but it
still scores strictly *higher* than the second, and both lists map to the
same tier, `MEDIUM`. -/
theorem confidence_variance_amended :
    (compute_confidence [0.95, 0.40, 0.35]).score = 0.8431 ∧
    (compute_confidence [0.80, 0.81, 0.79]).score = 0.8075 ∧
    (compute_confidence [0.80, 0.81, 0.79]).score <
      (compute_confidence [0.95, 0.40, 0.35]).score ∧
    (compute_confidence [0.95, 0.40, 0.35]).tier = "MEDIUM" ∧
    (compute_confidence [0.80, 0.81, 0.79]).tier = "MEDIUM" := by
  refine ⟨?_, ?_, ?_, ?_, ?_⟩ <;>
    norm_num [compute_confidence, roundQ4, roundHalfEven, max_def, min_def,
      THRESHOLD_NOT_FOUND, THRESHOLD_LOW, THRESHOLD_MEDIUM]

theorem rerank_chunks_mem (chunks : List Chunk) (flash : Except String String) :
    ∀ c ∈ rerank_chunks chunks flash, c ∈ chunks := by
  intro c hc
  unfold rerank_chunks at hc
  split at hc
  · exact hc
  · split at hc
    · exact hc
    · simp only [List.mem_append] at hc
      rcases hc with h | h <;>
      · rcases List.mem_filterMap.mp h with ⟨i, -, hi⟩
        exact List.getElem?_mem hi

theorem retrieveLoop_ok_zero (o : Oracle) (qs : List String)
    (hembed : ∀ q, o.embed q = .ok ())
    (hsearch : ∀ q, ∃ items, o.search q = .ok items ∧
      ∀ it ∈ items, 2 ≤ it.distance) :
    ∃ chunks t, retrieveLoop o qs = (.ok chunks, t) ∧
      ∀ c ∈ chunks, c.similarity = 0 := by
  induction qs with
  | nil => exact ⟨[], [], rfl, by simp⟩
  | cons q qs ih =>
    obtain ⟨items, hit, hd⟩ := hsearch q
    obtain ⟨chunks, t, hr, hz⟩ := ih
    refine ⟨items.map toChunk ++ chunks,
      .embedCall q :: .searchCall q :: t, ?_, ?_⟩
    · simp only [retrieveLoop, hembed q, hit, hr]
    · intro c hc
      rcases List.mem_append.mp hc with h | h
      · rcases List.mem_map.mp h with ⟨it, hitm, hEq⟩
        subst hEq
        show max 0 (1 - it.distance / 2) = 0
        have := hd it hitm
        apply max_eq_left
        linarith
      · exact hz c h

/-- **C4.**  When every retrieval row is at distance `≥ 2` (similarity `0`),
or retrieval returns no rows at all, `ask_question` (for any valid query)
returns the fixed refusal: tier `NOT_FOUND`, the interpolated template as the
answer, and no citations.  And `compute_confidence` on the empty similarity
list fails closed with tier `NOT_FOUND` and score `0` for any optional
arguments. -/
theorem retrieval_zero_notfound (query : QueryArg) (subject : String)
    (o : Oracle) (cleaned : String) (keywords : List String)
    (hpre : preprocessQuery query = .ok (cleaned, keywords))
    (hembed : ∀ q, o.embed q = .ok ())
    (hsearch : ∀ q, ∃ items, o.search q = .ok items ∧
      ∀ it ∈ items, 2 ≤ it.distance) :
    (∃ r t, ask_question query subject o = (.ok r, t) ∧
      r.confidenceTier = "NOT_FOUND" ∧
      r.answer = NOT_FOUND_TEMPLATE subject ∧ r.citations = []) ∧
    (∀ ks ts, compute_confidence [] ks ts = ⟨"NOT_FOUND", 0, 0, 0, 0, 0, 0⟩) := by
  refine ⟨?_, fun ks ts => rfl⟩
  obtain ⟨chunks, tr, hret, hzero⟩ := retrieveLoop_ok_zero o
    (generate_multi_queries cleaned o.expand) hembed hsearch
  have hmem₀ : ∀ c ∈ deduplicate_chunks chunks, c.similarity = 0 := by
    intro c hc
    refine hzero c ?_
    unfold deduplicate_chunks at hc
    revert hc
    split
    · exact id
    · exact fun h => (dedupGo_sublist chunks []).subset h
  simp only [ask_question, hpre, hret]
  split <;>
  · split
    · exact ⟨_, _, rfl, rfl, rfl, rfl⟩
    next hne =>
      obtain ⟨c0, cds', hcds⟩ := List.exists_cons_of_ne_nil hne
      have hz5 : ∀ c ∈ c0 :: cds', c.similarity = 0 := by
        rw [← hcds]
        intro c hc
        have hcR := List.mem_of_mem_take hc
        have hcD : c ∈ deduplicate_chunks chunks := by
          first
          | exact rerank_chunks_mem _ _ c hcR
          | exact hcR
        exact hmem₀ c hcD
      rw [hcds]
      simp only [List.map_cons]
      have key : ∀ x ∈ c0.similarity :: List.map Chunk.similarity cds',
          x < 11/20 := by
        intro x hx
        have hx0 : x = 0 := by
          rcases List.mem_cons.mp hx with h | h
          · subst h
            exact hz5 c0 (List.mem_cons_self _ _)
          · rcases List.mem_map.mp h with ⟨c, hcmem, hEq⟩
            subst hEq
            exact hz5 c (List.mem_cons_of_mem _ hcmem)
        rw [hx0]
        norm_num
      have hTier := compute_confidence_notfound_of_lt c0.similarity
        (List.map Chunk.similarity cds') keywords
        (c0.text :: List.map Chunk.text cds') key
      rw [if_pos (Or.inl hTier)]
      exact ⟨_, _, rfl, rfl, rfl, rfl⟩

/-- Witness for `retrieval_zero_notfound`: a valid query against
`zeroSimOracle`. -/
theorem retrieval_zero_notfound_witness :
    (∃ r t, ask_question (.ofStr "what is dna") "Biology" zeroSimOracle =
        (.ok r, t) ∧
      r.confidenceTier = "NOT_FOUND" ∧
      r.answer = NOT_FOUND_TEMPLATE "Biology" ∧ r.citations = []) ∧
    (∀ ks ts, compute_confidence [] ks ts = ⟨"NOT_FOUND", 0, 0, 0, 0, 0, 0⟩) :=
  retrieval_zero_notfound (.ofStr "what is dna") "Biology" zeroSimOracle
    "what is dna" ["dna"] (by decide) (fun q => rfl)
    (fun q => ⟨[⟨"Mitochondria are organelles", "bio.pdf", "Page 3", "pdf",
        "c1", 2⟩], rfl,
      by intro it hit; simp at hit; subst hit; norm_num⟩)

/-- **C10.**  Whenever the primary model's call reported an answer that is
empty after trimming or begins (case-insensitively) with
`"not found in your notes"`, any result `ask_question` returns is the fixed
refusal: tier `NOT_FOUND`, the interpolated template, empty citations — even
when the computed confidence tier had passed the gate as `MEDIUM` or
`HIGH`. -/
theorem generation_notfound_normalization (query : QueryArg) (subject : String)
    (o : Oracle) (raw : String) (r : AnswerResult) (t : List ExtCall)
    (hgen : o.generate = .ok raw)
    (hbad : pyStrip raw = "" ∨
      "not found in your notes".data.isPrefixOf
        (pyLowerList (pyStrip raw).data) = true)
    (h : ask_question query subject o = (.ok r, t)) :
    r.confidenceTier = "NOT_FOUND" ∧ r.answer = NOT_FOUND_TEMPLATE subject ∧
    r.citations = [] := by
  simp only [ask_question, hgen] at h
  repeat' split at h
  all_goals simp only [Prod.mk.injEq, Except.ok.injEq, reduceCtorEq,
    false_and, and_false] at h
  all_goals obtain ⟨hr, -⟩ := h
  all_goals subst hr
  all_goals exact ⟨rfl, rfl, rfl⟩

theorem genPath_confidence :
    compute_confidence [(19:ℚ)/20] [] ["Mitochondria are organelles"] =
      ⟨"HIGH", 19/20, 19/20, 19/20, 19/20, 0, 0⟩ := by
  norm_num [compute_confidence, roundQ4, roundHalfEven, max_def, min_def,
    THRESHOLD_NOT_FOUND, THRESHOLD_LOW, THRESHOLD_MEDIUM,
    ConfidenceResult.mk.injEq]

theorem genPath_eval :
    ask_question (.ofStr "what is it") "Biology" genPathOracle =
      (.ok (not_found_response "Biology" (19/20) [genPathChunk]),
        [.expandCall, .embedCall "what is it", .searchCall "what is it",
          .generateCall]) := by
  have hpre : preprocessQuery (.ofStr "what is it") =
      .ok ("what is it", []) := by decide
  have hmq : generate_multi_queries "what is it" genPathOracle.expand =
      ["what is it"] := rfl
  have htc : toChunk ⟨"Mitochondria are organelles", "bio.pdf", "Page 3",
      "pdf", "c1", 1/10⟩ = genPathChunk := by
    simp only [toChunk, genPathChunk, Chunk.mk.injEq]
    norm_num [max_def]
  have hret : retrieveLoop genPathOracle ["what is it"] =
      (.ok [genPathChunk],
        [.embedCall "what is it", .searchCall "what is it"]) := by
    simp only [retrieveLoop, genPathOracle, List.map_cons, List.map_nil, htc,
      List.append_nil]
  have hsim : List.map Chunk.similarity [genPathChunk] = [(19:ℚ)/20] := rfl
  have htxt : List.map Chunk.text [genPathChunk] =
      ["Mitochondria are organelles"] := rfl
  simp only [ask_question, hpre, hmq, hret, List.take, hsim, htxt]
  rw [if_neg (by simp : ¬ ([genPathChunk] = []))]
  rw [genPath_confidence]
  rw [if_neg (by simp : ¬ ((⟨"HIGH", 19/20, 19/20, 19/20, 19/20, 0, 0⟩ :
    ConfidenceResult).tier = "NOT_FOUND" ∨ (⟨"HIGH", 19/20, 19/20, 19/20,
    19/20, 0, 0⟩ : ConfidenceResult).tier = "LOW"))]
  rw [show genPathOracle.generate = Except.ok "   " from rfl]
  simp only []
  rw [if_pos (Or.inl (by decide : pyStrip "   " = ""))]
  rw [if_neg (by decide : ¬ (2 < (deduplicate_chunks [genPathChunk]).length))]
  rfl

/-- Witness for `generation_notfound_normalization`: against
`genPathOracle` the confidence tier is `HIGH` and generation is reached, yet
the whitespace-only generated answer is normalized to the refusal. -/
theorem generation_notfound_normalization_witness :
    (not_found_response "Biology" (19/20) [genPathChunk]).confidenceTier =
      "NOT_FOUND" ∧
    (not_found_response "Biology" (19/20) [genPathChunk]).answer =
      NOT_FOUND_TEMPLATE "Biology" ∧
    (not_found_response "Biology" (19/20) [genPathChunk]).citations = [] :=
  generation_notfound_normalization (.ofStr "what is it") "Biology"
    genPathOracle "   " (not_found_response "Biology" (19/20) [genPathChunk])
    [.expandCall, .embedCall "what is it", .searchCall "what is it",
      .generateCall]
    rfl (Or.inl (by decide)) genPath_eval

/-- Witness for `ask_question_confidence_invariant`: the refusal that
`genPathOracle` produces after its whitespace-only generated answer is
normalized. -/
theorem ask_question_confidence_invariant_witness :
    (((not_found_response "Biology" (19/20) [genPathChunk]).confidenceTier =
        "NOT_FOUND" ∨
      (not_found_response "Biology" (19/20) [genPathChunk]).confidenceTier =
        "LOW") ↔
      ((not_found_response "Biology" (19/20) [genPathChunk]).answer =
          NOT_FOUND_TEMPLATE "Biology" ∧
        (not_found_response "Biology" (19/20) [genPathChunk]).citations = [])) ∧
    (((not_found_response "Biology" (19/20) [genPathChunk]).confidenceTier =
        "MEDIUM" ∨
      (not_found_response "Biology" (19/20) [genPathChunk]).confidenceTier =
        "HIGH") →
      (not_found_response "Biology" (19/20) [genPathChunk]).citations ≠ []) :=
  ask_question_confidence_invariant (.ofStr "what is it") "Biology"
    genPathOracle (not_found_response "Biology" (19/20) [genPathChunk])
    [.expandCall, .embedCall "what is it", .searchCall "what is it",
      .generateCall]
    genPath_eval

theorem extractGo_skip_of_seen (chunks : List Chunk) (f loc : String) :
    ∀ (a b : List (String × String)) (seen : List String),
      citationSig (pyStrip f) (pyStrip loc) ∈ seen →
      extractGo (a ++ (f, loc) :: b) seen chunks =
        extractGo (a ++ b) seen chunks := by
  intro a
  induction a with
  | nil =>
    intro b seen hs
    simp only [List.nil_append, extractGo]
    rw [if_pos hs]
  | cons q a ih =>
    intro b seen hs
    obtain ⟨qf, ql⟩ := q
    simp only [List.cons_append, extractGo]
    by_cases hq : citationSig (pyStrip qf) (pyStrip ql) ∈ seen
    · rw [if_pos hq, if_pos hq]
      exact ih b seen hs
    · rw [if_neg hq, if_neg hq]
      cases hf : chunks.find? (fun c => chunkMatches (pyStrip qf) (pyStrip ql) c) with
      | none => exact ih b seen hs
      | some c =>
        simp only []
        congr 1
        exact ih b _ (List.mem_cons_of_mem _ hs)

theorem extractGo_skip_of_unresolved (chunks : List Chunk) (f loc : String)
    (hfind : chunks.find?
      (fun c => chunkMatches (pyStrip f) (pyStrip loc) c) = none) :
    ∀ (a b : List (String × String)) (seen : List String),
      extractGo (a ++ (f, loc) :: b) seen chunks =
        extractGo (a ++ b) seen chunks := by
  intro a
  induction a with
  | nil =>
    intro b seen
    simp only [List.nil_append, extractGo]
    by_cases hs : citationSig (pyStrip f) (pyStrip loc) ∈ seen
    · rw [if_pos hs]
    · rw [if_neg hs, hfind]
  | cons q a ih =>
    intro b seen
    obtain ⟨qf, ql⟩ := q
    simp only [List.cons_append, extractGo]
    by_cases hq : citationSig (pyStrip qf) (pyStrip ql) ∈ seen
    · rw [if_pos hq, if_pos hq]
      exact ih b seen
    · rw [if_neg hq, if_neg hq]
      cases hf : chunks.find? (fun c => chunkMatches (pyStrip qf) (pyStrip ql) c) with
      | none => exact ih b seen
      | some c =>
        simp only []
        congr 1
        exact ih b _

theorem extractGo_resolved (chunks : List Chunk) :
    ∀ (ms : List (String × String)) (seen : List String) (cit : Citation),
      cit ∈ extractGo ms seen chunks →
      ∃ f loc c, chunks.find? (fun ch => chunkMatches f loc ch) = some c ∧
        cit = mkCitation c := by
  intro ms
  induction ms with
  | nil => intro seen cit hcit; simp [extractGo] at hcit
  | cons q ms ih =>
    intro seen cit hcit
    obtain ⟨f, loc⟩ := q
    simp only [extractGo] at hcit
    by_cases hs : citationSig (pyStrip f) (pyStrip loc) ∈ seen
    · rw [if_pos hs] at hcit
      exact ih seen cit hcit
    · rw [if_neg hs] at hcit
      cases hf : chunks.find? (fun c => chunkMatches (pyStrip f) (pyStrip loc) c) with
      | none =>
        rw [hf] at hcit
        exact ih seen cit hcit
      | some c =>
        rw [hf] at hcit
        rcases List.mem_cons.mp hcit with h | h
        · exact ⟨pyStrip f, pyStrip loc, c, hf, h⟩
        · exact ih _ cit h

theorem extractGo_all_unresolved (chunks : List Chunk) :
    ∀ (ms : List (String × String)) (seen : List String),
      (∀ p ∈ ms, chunks.find?
        (fun c => chunkMatches (pyStrip p.1) (pyStrip p.2) c) = none) →
      extractGo ms seen chunks = [] := by
  intro ms
  induction ms with
  | nil => intro seen _; rfl
  | cons q ms ih =>
    intro seen h
    obtain ⟨f, loc⟩ := q
    simp only [extractGo]
    by_cases hs : citationSig (pyStrip f) (pyStrip loc) ∈ seen
    · rw [if_pos hs]
      exact ih seen (fun p hp => h p (List.mem_cons_of_mem _ hp))
    · rw [if_neg hs, h (f, loc) (List.mem_cons_self _ _)]
      exact ih seen (fun p hp => h p (List.mem_cons_of_mem _ hp))

theorem extractGo_duplicate_marker (chunks : List Chunk) (f loc : String) :
    ∀ (a b c' : List (String × String)) (seen : List String),
      extractGo (a ++ (f, loc) :: b ++ (f, loc) :: c') seen chunks =
        extractGo (a ++ (f, loc) :: b ++ c') seen chunks := by
  intro a
  induction a with
  | nil =>
    intro b c' seen
    simp only [List.nil_append, extractGo]
    by_cases hs : citationSig (pyStrip f) (pyStrip loc) ∈ seen
    · rw [if_pos hs, if_pos hs]
      exact extractGo_skip_of_seen chunks f loc b c' seen hs
    · rw [if_neg hs, if_neg hs]
      cases hf : chunks.find? (fun c => chunkMatches (pyStrip f) (pyStrip loc) c) with
      | none =>
        exact extractGo_skip_of_unresolved chunks f loc hf b c' seen
      | some c =>
        simp only []
        congr 1
        exact extractGo_skip_of_seen chunks f loc b c' _
          (List.mem_cons_self _ _)
  | cons q a ih =>
    intro b c' seen
    obtain ⟨qf, ql⟩ := q
    simp only [List.cons_append, extractGo]
    by_cases hq : citationSig (pyStrip qf) (pyStrip ql) ∈ seen
    · rw [if_pos hq, if_pos hq]
      exact ih b c' seen
    · rw [if_neg hq, if_neg hq]
      cases hf : chunks.find? (fun c => chunkMatches (pyStrip qf) (pyStrip ql) c) with
      | none => exact ih b c' seen
      | some c =>
        simp only []
        congr 1
        exact ih b c' _

/-- **C7 (amended).**  `extract_citations` resolves each kept marker to the
*first* chunk whose `locationRef` equals the captured location exactly and
whose `fileName` equals the captured name exactly or ends with it; markers
matching no chunk are dropped without error; and markers are deduplicated by
the *joined string* `filename + "_" + location` (not by the pair — see the
counterexample), so in particular an answer containing the same
`[SOURCE: f, loc]` marker twice yields exactly one citation, as in the
`notes.pdf` example. -/
theorem extract_citations_spec :
    (∀ (ans : String) (chunks : List Chunk) (cit : Citation),
      cit ∈ extract_citations ans chunks →
      ∃ f loc c, chunks.find? (fun ch => chunkMatches f loc ch) = some c ∧
        cit = mkCitation c) ∧
    (∀ (ms : List (String × String)) (seen : List String) (chunks : List Chunk),
      (∀ p ∈ ms, chunks.find?
        (fun c => chunkMatches (pyStrip p.1) (pyStrip p.2) c) = none) →
      extractGo ms seen chunks = []) ∧
    (∀ (f loc : String) (a b c' : List (String × String)) (seen : List String)
      (chunks : List Chunk),
      extractGo (a ++ (f, loc) :: b ++ (f, loc) :: c') seen chunks =
        extractGo (a ++ (f, loc) :: b ++ c') seen chunks) ∧
    (extract_citations
        "See [SOURCE: notes.pdf, Page 1] and [SOURCE: notes.pdf, Page 1]."
        [⟨"Photosynthesis is the process.", "notes.pdf", "Page 1", "pdf",
          "chunk-1", 0⟩] =
      [⟨"notes.pdf", "Page 1", "chunk-1", "pdf"⟩]) ∧
    (extract_citations "[SOURCE: other.pdf, Page 9]"
        [⟨"Photosynthesis is the process.", "notes.pdf", "Page 1", "pdf",
          "chunk-1", 0⟩] = []) :=
  ⟨fun ans chunks cit h => extractGo_resolved chunks _ [] cit h,
    fun ms seen chunks h => extractGo_all_unresolved chunks ms seen h,
    fun f loc a b c' seen chunks =>
      extractGo_duplicate_marker chunks f loc a b c' seen,
    by decide, by decide⟩

/-- **C7 (counterexample).**  Marker deduplication uses the joined string
`filename + "_" + location`, which conflates the two *distinct* pairs
`("a", "b_c")` and `("a_b", "c")` (both join to `"a_b_c"`).  Both markers
appear in the answer and each matches its own chunk, yet only one citation
is returned — the claim's dedup-by-pair/resolve-each-marker reading predicts
two. -/
theorem extract_citations_underscore_cex :
    (extract_citations "[SOURCE: a, b_c] [SOURCE: a_b, c]"
        [⟨"t1", "a", "b_c", "pdf", "cid1", 0⟩,
          ⟨"t2", "a_b", "c", "pdf", "cid2", 0⟩] =
      [⟨"a", "b_c", "cid1", "pdf"⟩]) ∧
    (([⟨"t1", "a", "b_c", "pdf", "cid1", 0⟩,
        ⟨"t2", "a_b", "c", "pdf", "cid2", 0⟩] : List Chunk).find?
      (fun c => chunkMatches "a_b" "c" c)).isSome = true ∧
    (("a", "b_c") ≠ (("a_b" : String), ("c" : String))) := by
  refine ⟨by decide, by decide, by decide⟩
